import Mathlib

/-!
Verification of the DNIPRO_PARSER schedule-extraction core.

This file shallowly embeds the schedule-parsing and update-merging engine of
the repository (files `src/dnipro_telegram_parser.py` and
`src/schedule_updates_parser.py`) and proves properties of the embedding.

Embedding conventions:
* Clock times are represented in integer **minutes** (`Nat`).  In the source,
  `time_to_hour` maps `"HH:MM"` to the float `HH + MM/60`; every value the
  program ever compares such a float against is a whole or half hour
  (`h-1`, `h-0.5`, `h`, `24`).  Both sides are therefore exact multiples of
  `1/60`, all floats involved represent those rationals exactly at the
  comparison boundaries, and scaling by 60 turns every comparison into an
  equivalent comparison of natural numbers.  So `t` hours is embedded as
  `60*t` minutes, `24.0` as `1440`, and slot boundaries `start/mid/end` of
  hour `h` as `(h-1)*60`, `(h-1)*60+30`, `h*60`.
* A Python dict is embedded as an association list (`List (String × _)`):
  insertion order is preserved, assignment to an existing key replaces in
  place, assignment to a fresh key appends.
* An Hour Map (dict with the fixed key set `"1".."24"`) is embedded as a
  `List CellState` of length 24, index `i` holding the value at key
  `toString (i+1)`.
-/

namespace Dnipro

/-- The Cell State vocabulary of the schedule store (`preset.time_type` plus
the render-side `maybe`-variants): availability of power within one hour at
half-hour granularity. -/
inductive CellState : Type
  | yes
  | no
  | maybe
  | first
  | second
  | mfirst
  | msecond
deriving DecidableEq

/-- An Hour Map: the per-group dict with keys `"1".."24"`; index `i` of the
list is the value at hour key `i+1`. -/
abbrev HourMap := List CellState

/-- A Day Table: dict from group id (`"GPV<major>.<minor>"`) to Hour Map. -/
abbrev DayTable := List (String × HourMap)

/-- Reading hour key `h` of an Hour Map (`result[group_id][str(h)]`). -/
def cellAt (m : HourMap) (h : Nat) : CellState :=
  m.getD (h - 1) CellState.yes

/-- `{str(h): "yes" for h in range(1, 25)}` — a fresh all-`yes` Hour Map. -/
def initHourMap : HourMap :=
  List.replicate 24 CellState.yes

/-- Dict read: first binding of key `k` in an association list. -/
def lookupA {α : Type} (k : String) : List (String × α) → Option α
  | [] => none
  | p :: rest => if p.1 = k then some p.2 else lookupA k rest

/-- Dict write `d[k] = v`: replace the binding in place if the key exists,
append otherwise. -/
def setA {α : Type} (k : String) (v : α) (l : List (String × α)) : List (String × α) :=
  if (lookupA k l).isSome then l.map (fun p => if p.1 = k then (k, v) else p)
  else l ++ [(k, v)]

/-- `time_to_hour` (both modules define it identically), in minutes:
`"HH:MM" ↦ 60*HH + MM`.  The split on `":"` and `int` conversion are embedded
as direct digit folding over the two fields. -/
def digitsToNat (s : String) : Nat :=
  s.data.foldl (fun n c => n * 10 + (c.toNat - 48)) 0

/-- `time_to_hour` applied to the two captured fields of a `"HH:MM"` time. -/
def time_to_hour (hh mm : String) : Nat :=
  60 * digitsToNat hh + digitsToNat mm

/-- One hour slot of `put_interval` (`dnipro_telegram_parser.put_interval`,
body of the `for hour in range(1, 25)` loop, which writes only the slot's own
key): compute `first_off`/`second_off` from the slot boundaries and map the
cell. An untouched slot (`continue`) keeps its old value. -/
def putIntervalCell (t1 t2 : Nat) (hour : Nat) (old : CellState) : CellState :=
  let h_start := (hour - 1) * 60
  let h_mid := h_start + 30
  let h_end := h_start + 60
  let first_off := t1 < h_mid ∧ t2 > h_start
  let second_off := t1 < h_end ∧ t2 > h_mid
  if ¬ first_off ∧ ¬ second_off then old
  else if first_off ∧ second_off then CellState.no
  else if first_off then CellState.first
  else if second_off then CellState.second
  else old

/-- `put_interval(result, group_id, t1, t2)` restricted to the one Hour Map it
mutates (`result[group_id]`).  The Python loop over `hour in range(1, 25)`
writes each iteration only to key `str(hour)` and reads nothing, so it is a
pointwise map over the 24 slots. -/
def put_interval (m : HourMap) (t1 t2 : Nat) : HourMap :=
  (List.range 24).map fun i => putIntervalCell t1 t2 (i + 1) (m.getD i CellState.yes)

/-- One hour slot of `schedule_updates_parser.put_interval_update`: as
`putIntervalCell`, but when only one half-hour goes off, a cell already
holding the opposite half-hour outage escalates to `no`. -/
def putIntervalUpdateCell (t1 t2 : Nat) (hour : Nat) (old : CellState) : CellState :=
  let h_start := (hour - 1) * 60
  let h_mid := h_start + 30
  let h_end := h_start + 60
  let first_off := t1 < h_mid ∧ t2 > h_start
  let second_off := t1 < h_end ∧ t2 > h_mid
  if ¬ first_off ∧ ¬ second_off then old
  else if first_off ∧ second_off then CellState.no
  else if first_off then
    if old = CellState.second then CellState.no else CellState.first
  else if second_off then
    if old = CellState.first then CellState.no else CellState.second
  else old

/-- `put_interval_update(result, group_id, t1, t2)` restricted to the Hour Map
of `group_id`.  In every call the caller (`apply_schedule_update`) passes
`{group_id: date_data[group_id]}`, so the `group_id not in result`
initialization branch of the Python loop never fires; each iteration then
reads and writes only the slot's own key, so the loop is a pointwise map. -/
def put_interval_update (m : HourMap) (t1 t2 : Nat) : HourMap :=
  (List.range 24).map fun i => putIntervalUpdateCell t1 t2 (i + 1) (m.getD i CellState.yes)

/-! ### Text scanning

The regexes of the source are embedded as deterministic scanners over
`List Char`.  Each `matchXAt` function tries the pattern anchored at the head
of the list and returns the captures plus the unread suffix; each `scanX` /
`findX` function replays `re.search` / `re.finditer` semantics: leftmost
match first, continuing after the end of a match (non-overlapping). -/

/-- `\s` (the whitespace classes occurring in the posts). -/
def isSpaceChar (c : Char) : Bool :=
  c = ' ' ∨ c = '\t' ∨ c = '\n' ∨ c = '\r' ∨ c = Char.ofNat 0xA0

/-- `\d` (ASCII digits; the posts contain no other decimal digits). -/
def isDigitChar (c : Char) : Bool :=
  '0' ≤ c ∧ c ≤ '9'

/-- `\s+`: at least one whitespace character, consumed greedily.  The element
following it in every pattern below is never whitespace, so the greedy
consumption needs no backtracking. -/
def dropSpaces1 : List Char → Option (List Char)
  | [] => none
  | c :: cs => if isSpaceChar c then some (cs.dropWhile isSpaceChar) else none

/-- `\s*`: any whitespace, consumed greedily (followed by non-whitespace in
every pattern below). -/
def dropSpaces0 (cs : List Char) : List Char :=
  cs.dropWhile isSpaceChar

/-- `\d+` followed by a non-digit: the maximal digit run (must be nonempty). -/
def takeDigits1 (cs : List Char) : Option (List Char × List Char) :=
  let ds := cs.takeWhile isDigitChar
  if ds.isEmpty then none else some (ds, cs.dropWhile isDigitChar)

/-- Literal match of `pat` at the head of the text. -/
def dropLit : List Char → List Char → Option (List Char)
  | [], cs => some cs
  | _ :: _, [] => none
  | p :: ps, c :: cs => if c = p then dropLit ps cs else none

/-- `(\d{1,2}:\d{2})` anchored at the head: greedy one-or-two hour digits,
`':'`, exactly two minute digits.  The two-digit and one-digit hour
alternatives are distinguished by whether the second character is a digit or
`':'`, so the greedy quantifier needs no further backtracking.  Returns the
captured `HH`/`H` and `MM` digit strings and the unread suffix. -/
def matchTimeAt : List Char → Option (String × String × List Char)
  | c1 :: c2 :: c3 :: c4 :: c5 :: rest =>
    if isDigitChar c1 ∧ isDigitChar c2 ∧ c3 = ':' ∧ isDigitChar c4 ∧ isDigitChar c5 then
      some (String.mk [c1, c2], String.mk [c4, c5], rest)
    else if isDigitChar c1 ∧ c2 = ':' ∧ isDigitChar c3 ∧ isDigitChar c4 then
      some (String.mk [c1], String.mk [c3, c4], c5 :: rest)
    else none
  | [c1, c2, c3, c4] =>
    if isDigitChar c1 ∧ c2 = ':' ∧ isDigitChar c3 ∧ isDigitChar c4 then
      some (String.mk [c1], String.mk [c3, c4], [])
    else none
  | _ => none

/-- `з\s+(\d{1,2}:\d{2})\s+до\s+(\d{1,2}:\d{2})` anchored at the head
(interval pattern shared by `parse_schedule_from_text` and
`parse_time_intervals`): returns both captured times (as hour/minute digit
fields) and the unread suffix. -/
def matchIntervalAt (cs : List Char) : Option ((String × String) × (String × String) × List Char) := do
  let r1 ← dropLit ['з'] cs
  let r2 ← dropSpaces1 r1
  let (h1, m1, r3) ← matchTimeAt r2
  let r4 ← dropSpaces1 r3
  let r5 ← dropLit ['д', 'о'] r4
  let r6 ← dropSpaces1 r5
  let (h2, m2, r7) ← matchTimeAt r6
  pure ((h1, m1), (h2, m2), r7)

/-- `re.findall` of the interval pattern: leftmost, non-overlapping.  Fuel is
the text length; every step consumes at least one character. -/
def findIntervalsAux : Nat → List Char → List ((String × String) × (String × String))
  | 0, _ => []
  | _ + 1, [] => []
  | fuel + 1, c :: cs =>
    match matchIntervalAt (c :: cs) with
    | some (t1, t2, rest) => (t1, t2) :: findIntervalsAux fuel rest
    | none => findIntervalsAux fuel cs

/-- All `"з HH:MM до HH:MM"` intervals of a text scope, in order. -/
def findIntervals (cs : List Char) : List ((String × String) × (String × String)) :=
  findIntervalsAux cs.length cs

/-- `📌\s*(\d+\.\d+)\s*черг[аи]:` anchored at the head: the group-declaration
marker of `parse_schedule_from_text`.  Returns the captured `<major>.<minor>`
and the unread suffix. -/
def matchGroupAt (cs : List Char) : Option (String × List Char) := do
  let r1 ← dropLit ['📌'] cs
  let r2 := dropSpaces0 r1
  let (d1, r3) ← takeDigits1 r2
  let r4 ← dropLit ['.'] r3
  let (d2, r5) ← takeDigits1 r4
  let r6 := dropSpaces0 r5
  let r7 ← dropLit ['ч', 'е', 'р', 'г'] r6
  match r7 with
  | c :: r8 =>
    if c = 'а' ∨ c = 'и' then
      match r8 with
      | c2 :: r9 => if c2 = ':' then some (String.mk (d1 ++ '.' :: d2), r9) else none
      | [] => none
    else none
  | [] => none

/-- First group-declaration match at or after the head: returns the text
before the match, the captured group number and the text after the match. -/
def scanGroup : List Char → Option (List Char × String × List Char)
  | [] => none
  | c :: cs =>
    match matchGroupAt (c :: cs) with
    | some (g, rest) => some ([], g, rest)
    | none =>
      match scanGroup cs with
      | some (pre, g, rest) => some (c :: pre, g, rest)
      | none => none

/-- Helper of `truncAtWarning`: keep characters up to the first position where
`pat` occurs. -/
def truncAtLit (pat : List Char) : List Char → List Char
  | [] => []
  | c :: rest =>
    match dropLit pat (c :: rest) with
    | some _ => []
    | none => c :: truncAtLit pat rest

/-- `re.search(r'Попереджаємо', text)`: truncate the last group's scope at the
first occurrence of the warning sentinel (or keep the whole text). -/
def truncAtWarning (cs : List Char) : List Char :=
  truncAtLit "Попереджаємо".data cs

/-- Pair every matched group number with its text scope: for a non-final
group the text up to the next declaration, for the final group the remaining
text truncated at the warning sentinel.  Fuel bounds the number of further
matches; each recursive call works on a strictly shorter suffix, so the text
length is always enough fuel. -/
def collectGroupsAux : Nat → String → List Char → List (String × List Char)
  | 0, g, rest => [(g, truncAtWarning rest)]
  | fuel + 1, g, rest =>
    match scanGroup rest with
    | none => [(g, truncAtWarning rest)]
    | some (pre, g2, rest2) => (g, pre) :: collectGroupsAux fuel g2 rest2

/-- All group declarations of a post with their scopes, in order. -/
def collectGroups (cs : List Char) : List (String × List Char) :=
  match scanGroup cs with
  | none => []
  | some (_, g, rest) => collectGroupsAux cs.length g rest

/-! ### The Full-Schedule Parser -/

/-- The per-interval step of `parse_schedule_from_text`: a midnight-crossing
interval (`t2 <= t1`) is split into `(t1, 24.0)` and `(0.0, t2)` before being
fed to `put_interval`. -/
def applyParsedInterval (m : HourMap) (t1 t2 : Nat) : HourMap :=
  if t2 ≤ t1 then put_interval (put_interval m t1 1440) 0 t2
  else put_interval m t1 t2

/-- In-place mutation of one group's Hour Map inside a Day Table.  (The Python
code indexes `result[group_id]` directly; in the parser the group was always
just initialized, so the key is present.) -/
def updateGroup (result : DayTable) (g : String) (f : HourMap → HourMap) : DayTable :=
  match lookupA g result with
  | some m => setA g (f m) result
  | none => result

/-- `parse_schedule_from_text`: locate all group declarations with their text
scopes, initialize each declared group to all-`yes`, then apply every
`"з HH:MM до HH:MM"` interval of the group's scope.  (The Python `try` around
an interval only guards `time_to_hour`, which cannot fail on the
scanner-shaped captures.) -/
def parse_schedule_from_text (text : String) : DayTable :=
  (collectGroups text.data).foldl
    (fun result gp =>
      let group_id := "GPV" ++ gp.1
      let result := setA group_id initHourMap result
      (findIntervals gp.2).foldl
        (fun result iv =>
          let t1 := time_to_hour iv.1.1 iv.1.2
          let t2 := time_to_hour iv.2.1 iv.2.2
          updateGroup result group_id (fun m => applyParsedInterval m t1 t2))
        result)
    []

/-! ### The incremental-update merge -/

/-- The mutable parts of the persisted Schedule Document that
`apply_schedule_update` touches: `lastUpdated`, `fact.data`, `fact.update`.
(`regionId`, `fact.today` and `preset` are never read or written by the
merge.) -/
structure ScheduleDoc : Type where
  lastUpdated : String
  factData : List (String × DayTable)
  factUpdate : String
deriving DecidableEq

/-- The per-interval step of `apply_schedule_update`: an interval with
`t2 > 24.0` (only produced by the `"продовжується до"` normalization of
`parse_time_intervals`) is split into `(t1, 24.0)` and `(0.0, t2 - 24.0)`;
every other interval — including a `"з HH:MM до HH:MM"` one with `t2 <= t1` —
is fed to `put_interval_update` unsplit. -/
def applyUpdateInterval (m : HourMap) (t1 t2 : Nat) : HourMap :=
  if t2 > 1440 then put_interval_update (put_interval_update m t1 1440) 0 (t2 - 1440)
  else put_interval_update m t1 t2

/-- One iteration of the per-group loop of `apply_schedule_update`: a group
absent from the day's table is skipped (logged `"Группа ... не найдена"`), a
present group gets every interval applied and is compared against its saved
`original_state` copy to update the `changes_made` flag. -/
def updGroupStep (intervals : List (Nat × Nat)) (acc : DayTable × Bool) (g : String) :
    DayTable × Bool :=
  match lookupA g acc.1 with
  | none => acc
  | some m =>
    let m2 := intervals.foldl (fun m iv => applyUpdateInterval m iv.1 iv.2) m
    (setA g m2 acc.1, acc.2 || decide (m2 ≠ m))

/-- The per-group fold of `apply_schedule_update`. -/
def applyUpdateGroups (dt : DayTable) (groups : List String)
    (intervals : List (Nat × Nat)) : DayTable × Bool :=
  groups.foldl (updGroupStep intervals) (dt, false)

/-- `apply_schedule_update(json_data, groups, intervals, target_date)`.
The resolved target day-key (today's local-midnight timestamp, or the one
computed from a `DD.MM.YYYY` `target_date`) and the two wall-clock "now"
strings are environment inputs and enter as parameters `target_ts`,
`nowUTC` (written to `lastUpdated`) and `nowLocal` (written to
`fact.update`).  Returns the `changes_made` flag and the resulting document. -/
def apply_schedule_update (doc : ScheduleDoc) (groups : List String)
    (intervals : List (Nat × Nat)) (target_ts nowUTC nowLocal : String) :
    Bool × ScheduleDoc :=
  if groups.isEmpty ∨ intervals.isEmpty then (false, doc)
  else
    match lookupA target_ts doc.factData with
    | none => (false, doc)
    | some dt0 =>
      let res := applyUpdateGroups dt0 groups intervals
      let doc2 : ScheduleDoc :=
        { doc with factData := setA target_ts res.1 doc.factData }
      if res.2 then
        (true, { doc2 with lastUpdated := nowUTC, factUpdate := nowLocal })
      else
        (false, doc2)

/-! ### The Date Extractor -/

/-- Unicode lowercasing for the alphabet occurring in the patterns of
`extract_date_from_post` (ASCII plus the Cyrillic block): this is what
`str.lower()` / `re.IGNORECASE` perform on those characters. -/
def lowerUkr (c : Char) : Char :=
  let n := c.toNat
  if 0x41 ≤ n ∧ n ≤ 0x5A then Char.ofNat (n + 0x20)
  else if 0x410 ≤ n ∧ n ≤ 0x42F then Char.ofNat (n + 0x20)
  else if 0x400 ≤ n ∧ n ≤ 0x40F then Char.ofNat (n + 0x50)
  else if n = 0x490 then Char.ofNat 0x491
  else c

/-- `\w` restricted to the script of the posts (ASCII word characters and the
Cyrillic block). -/
def isWordChar (c : Char) : Bool :=
  ('a' ≤ c ∧ c ≤ 'z') ∨ ('A' ≤ c ∧ c ≤ 'Z') ∨ ('0' ≤ c ∧ c ≤ '9') ∨ c = '_' ∨
    (0x400 ≤ c.toNat ∧ c.toNat ≤ 0x4FF)

/-- The character class `[\wʼ']` of the weekday capture. -/
def isWordApos (c : Char) : Bool :=
  isWordChar c ∨ c = Char.ofNat 0x2BC ∨ c = Char.ofNat 39

/-- The `months` dict of `extract_date_from_post`: genitive Ukrainian month
names to two-digit month codes, in insertion order. -/
def months : List (String × String) :=
  [("січня", "01"), ("лютого", "02"), ("березня", "03"), ("квітня", "04"),
   ("травня", "05"), ("червня", "06"), ("липня", "07"), ("серпня", "08"),
   ("вересня", "09"), ("жовтня", "10"), ("листопада", "11"), ("грудня", "12")]

/-- Case-insensitive literal match (`re.IGNORECASE`): `pat` is given in
lowercase and compared against the lowercased text. -/
def matchLowerLit : List Char → List Char → Option (List Char)
  | [], cs => some cs
  | _ :: _, [] => none
  | p :: ps, c :: cs => if lowerUkr c = p then matchLowerLit ps cs else none

/-- The month-name alternation, tried in dict order (the names are not
prefixes of one another, so alternative order cannot change the match set):
returns the month code of the first name matching at the head, with the
unread suffix. -/
def monthFrom : List (String × String) → List Char → Option (String × List Char)
  | [], _ => none
  | (nm, code) :: rest, cs =>
    match matchLowerLit nm.data cs with
    | some r => some (code, r)
    | none => monthFrom rest cs

/-- `(\d{1,2})\s+(<month alternation>)` anchored at the head.  The greedy
`\d{1,2}` first tries two digits; on failure of the tail it backtracks to one
digit (as the regex engine does).  The uppercase alternation of tier (a) and
the lowercase alternation of tier (c) match the same texts under
`re.IGNORECASE`, so both tiers share this matcher.  Returns the captured day
digits, the month code, and the unread suffix. -/
def tryDayTail (day : List Char) (rest : List Char) :
    Option (String × String × List Char) := do
  let r2 ← dropSpaces1 rest
  let (code, r3) ← monthFrom months r2
  pure (String.mk day, code, r3)

/-- See `tryDayTail`: the anchored day-month matcher. -/
def matchDayMonthAt : List Char → Option (String × String × List Char)
  | c1 :: c2 :: rest =>
    if isDigitChar c1 then
      if isDigitChar c2 then
        match tryDayTail [c1, c2] rest with
        | some r => some r
        | none => tryDayTail [c1] (c2 :: rest)
      else tryDayTail [c1] (c2 :: rest)
    else none
  | _ => none

/-- The first day-month match of the text (pattern tiers (a) and (c) of
`extract_date_from_post`; the month lookup always succeeds because the
alternation lists exactly the dict keys, so the first match returns). -/
def scanDayMonth : List Char → Option (String × String)
  | [] => none
  | c :: cs =>
    match matchDayMonthAt (c :: cs) with
    | some (day, code, _) => some (day, code)
    | none => scanDayMonth cs

/-- The ASCII apostrophe, written via its code point. -/
def apos : String :=
  String.mk [Char.ofNat 39]

/-- The `days_of_week` list of `extract_date_from_post`: accusative and
genitive Ukrainian weekday forms, with both apostrophe variants. -/
def weekdays : List String :=
  ["понеділок", "вівторок", "середу", "четвер", "п" ++ apos ++ "ятницю",
   "пʼятницю", "суботу", "неділю",
   "понеділка", "вівторка", "середи", "четверга", "п" ++ apos ++ "ятниці",
   "пʼятниці", "суботи", "неділі"]

/-- `у\s+([\wʼ']+),\s+(\d{1,2})\s+(<month alternation>)` anchored at the
head (tier (b) of `extract_date_from_post`); returns the lowercased weekday
capture, the day digits, the month code, and the unread suffix. -/
def matchTierBAt (cs : List Char) :
    Option (String × String × String × List Char) := do
  let r1 ← matchLowerLit ['у'] cs
  let r2 ← dropSpaces1 r1
  let w := r2.takeWhile isWordApos
  let r3 := r2.dropWhile isWordApos
  if w.isEmpty then none
  else do
    let r4 ← dropLit [','] r3
    let r5 ← dropSpaces1 r4
    let (day, code, r6) ← matchDayMonthAt r5
    pure (String.mk (w.map lowerUkr), day, code, r6)

/-- Tier (b) scan: iterate the tier-(b) matches left to right and return the
first whose weekday capture is in the fixed weekday list.  Fuel is the text
length; each step continues either one character on or past the match. -/
def scanTierBAux : Nat → List Char → Option (String × String)
  | 0, _ => none
  | _ + 1, [] => none
  | fuel + 1, c :: cs =>
    match matchTierBAt (c :: cs) with
    | some (wd, day, code, rest) =>
      if wd ∈ weekdays then some (day, code) else scanTierBAux fuel rest
    | none => scanTierBAux fuel cs

/-- `day_num.zfill(2)` for the 1-2 digit day captures. -/
def zfill2 (s : String) : String :=
  if s.length ≥ 2 then s else "0" ++ s

/-- The `DD.MM.YYYY` date string built by every tier of
`extract_date_from_post` (`datetime.now(TZ).year` enters as `year`). -/
def fmtDate (day code : String) (year : Nat) : String :=
  zfill2 day ++ "." ++ code ++ "." ++ toString year

/-- `extract_date_from_post(text)`: tier (a) `"<day> <MONTH-IN-CAPS>"`, then
tier (b) `"у <weekday>, <day> <month>"` validated against the weekday list,
then tier (c) bare `"<day> <month>"`; the first tier with a match wins and
yields `DD.MM.<current year>`.  Tiers (a) and (c) are the same matcher under
`re.IGNORECASE` (see `tryDayTail`), which the third branch makes literal. -/
def extract_date_from_post (text : String) (year : Nat) : Option String :=
  match scanDayMonth text.data with
  | some dm => some (fmtDate dm.1 dm.2 year)
  | none =>
    match scanTierBAux text.data.length text.data with
    | some dm => some (fmtDate dm.1 dm.2 year)
    | none =>
      match scanDayMonth text.data with
      | some dm => some (fmtDate dm.1 dm.2 year)
      | none => none

/-! ### The full parse-and-persist cycle (`main`) and its change gate -/

/-- `int(...)` applied to a day-key string when sorting the candidate map. -/
def keyToNat (s : String) : Nat :=
  digitsToNat s

/-- The canonical form of a Day Table used to model key-sorted JSON
serialization: since group keys are unique, two Day Tables have equal
`json.dumps(..., sort_keys=True)` serializations exactly when their binding
multisets are equal. -/
def canonTable (dt : DayTable) : Multiset (String × HourMap) :=
  (dt : Multiset (String × HourMap))

/-- The canonical form of a `fact.data` mapping (day-key to Day Table),
modelling its key-sorted JSON serialization: equal canonical forms exactly
when the serializations are byte-identical (day-keys are unique). -/
def canonData (d : List (String × DayTable)) :
    Multiset (String × Multiset (String × HourMap)) :=
  ((d.map fun p => (p.1, canonTable p.2)) : Multiset _)

/-- The environment of one `main` cycle: the local calendar context, the
timezone-dependent day-key conversion, and the wall-clock strings written on
an update. -/
structure ParseCtx : Type where
  todayStr : String
  tomorrowStr : String
  year : Nat
  dateToTs : String → String
  nowUTC : String
  nowLocal : String

/-- The per-post accumulation loop of `main`: extract the post's date, skip
posts without a date, with a date other than today/tomorrow, or with an
already-processed date; parse the schedule and skip posts yielding an empty
table; otherwise store the Day Table under the date's day-key timestamp and
mark the date processed. -/
def buildResults (ctx : ParseCtx) (posts : List String) :
    List (String × DayTable) :=
  (posts.foldl
    (fun acc text =>
      match extract_date_from_post text ctx.year with
      | none => acc
      | some ds =>
        if ds ≠ ctx.todayStr ∧ ds ≠ ctx.tomorrowStr then acc
        else if ds ∈ acc.2 then acc
        else
          let result := parse_schedule_from_text text
          if result.isEmpty then acc
          else (setA (ctx.dateToTs ds) result acc.1, ds :: acc.2))
    (([] : List (String × DayTable)), ([] : List String))).1

/-- The tail of `main` after fetching: build the candidate `{day-key: Day
Table}` map; report no update when it is empty; otherwise compare its
canonical serialization against the stored `fact.data` (when a stored
document exists) and either report no update without writing, or write a
fresh document whose `fact.data` is the candidate with day-keys sorted by
numeric value.  Returns (document written?, resulting store). -/
def main_cycle (ctx : ParseCtx) (posts : List String)
    (store : Option ScheduleDoc) : Bool × Option ScheduleDoc :=
  let results := buildResults ctx posts
  if results.isEmpty then (false, store)
  else
    let gateEq : Bool :=
      match store with
      | some doc => decide (canonData doc.factData = canonData results)
      | none => false
    if gateEq then (false, store)
    else
      let sortedResults :=
        List.insertionSort (fun a b => keyToNat a.1 ≤ keyToNat b.1) results
      (true, some ⟨ctx.nowUTC, sortedResults, ctx.nowLocal⟩)

/-- The four cell values the core ever writes. -/
def coreStates : List CellState :=
  [CellState.yes, CellState.no, CellState.first, CellState.second]

/-- Every cell of an Hour Map (and the default read off the end) is a core
state. -/
def goodMap (m : HourMap) : Prop :=
  ∀ c ∈ m, c ∈ coreStates

/-- Every Hour Map bound in a Day Table is good. -/
def goodTable (dt : DayTable) : Prop :=
  ∀ p ∈ dt, goodMap p.2

/-! ## Helper lemmas -/

lemma cellAt_map24 (f : Nat → CellState → CellState) (m : HourMap) (h : Nat)
    (h1 : 1 ≤ h) (h2 : h ≤ 24) :
    cellAt ((List.range 24).map fun i => f (i + 1) (m.getD i CellState.yes)) h
      = f h (cellAt m h) := by
  have hlt : h - 1 < 24 := by omega
  have hsucc : h - 1 + 1 = h := by omega
  simp only [cellAt, List.getD, List.get?_eq_getElem?, List.getElem?_map,
    List.getElem?_range hlt, Option.map_some', Option.getD_some, hsucc]

lemma cellAt_put_interval (m : HourMap) (t1 t2 h : Nat) (h1 : 1 ≤ h) (h2 : h ≤ 24) :
    cellAt (put_interval m t1 t2) h = putIntervalCell t1 t2 h (cellAt m h) :=
  cellAt_map24 _ m h h1 h2

lemma cellAt_put_interval_update (m : HourMap) (t1 t2 h : Nat) (h1 : 1 ≤ h) (h2 : h ≤ 24) :
    cellAt (put_interval_update m t1 t2) h = putIntervalUpdateCell t1 t2 h (cellAt m h) :=
  cellAt_map24 _ m h h1 h2

lemma putIntervalCell_eq (t1 t2 hour : Nat) (old : CellState) :
    putIntervalCell t1 t2 hour old =
      if (t1 < (hour - 1) * 60 + 30 ∧ t2 > (hour - 1) * 60) ∧
          (t1 < (hour - 1) * 60 + 60 ∧ t2 > (hour - 1) * 60 + 30) then CellState.no
      else if t1 < (hour - 1) * 60 + 30 ∧ t2 > (hour - 1) * 60 then CellState.first
      else if t1 < (hour - 1) * 60 + 60 ∧ t2 > (hour - 1) * 60 + 30 then CellState.second
      else old := by
  unfold putIntervalCell
  by_cases hfo : t1 < (hour - 1) * 60 + 30 ∧ t2 > (hour - 1) * 60 <;>
    by_cases hso : t1 < (hour - 1) * 60 + 60 ∧ t2 > (hour - 1) * 60 + 30 <;>
    simp [hfo, hso]

lemma putIntervalUpdateCell_eq (t1 t2 hour : Nat) (old : CellState) :
    putIntervalUpdateCell t1 t2 hour old =
      if (t1 < (hour - 1) * 60 + 30 ∧ t2 > (hour - 1) * 60) ∧
          (t1 < (hour - 1) * 60 + 60 ∧ t2 > (hour - 1) * 60 + 30) then CellState.no
      else if t1 < (hour - 1) * 60 + 30 ∧ t2 > (hour - 1) * 60 then
        (if old = CellState.second then CellState.no else CellState.first)
      else if t1 < (hour - 1) * 60 + 60 ∧ t2 > (hour - 1) * 60 + 30 then
        (if old = CellState.first then CellState.no else CellState.second)
      else old := by
  unfold putIntervalUpdateCell
  by_cases hfo : t1 < (hour - 1) * 60 + 30 ∧ t2 > (hour - 1) * 60 <;>
    by_cases hso : t1 < (hour - 1) * 60 + 60 ∧ t2 > (hour - 1) * 60 + 30 <;>
    simp [hfo, hso]

/-! ## Claims -/

/-- C2 (confirmed): for `0 ≤ t1 < t2 ≤ 24` (here in exact minutes:
`t1 < t2 ≤ 1440`) and any hour slot `h` in 1..24 of any group's Hour Map,
`put_interval` leaves the slot as dictated by
`first_off = (t1 < h-0.5 ∧ t2 > h-1)` and `second_off = (t1 < h ∧ t2 > h-0.5)`
(both → `no`, only first → `first`, only second → `second`, neither →
unchanged); consequently a slot fully inside `[t1, t2]` ends `no` and a slot
fully outside keeps its previous state. -/
theorem c2_put_interval_semantics (m : HourMap) (t1 t2 : Nat) (h : Nat)
    (hh : 1 ≤ h ∧ h ≤ 24) (hb : t1 < t2 ∧ t2 ≤ 1440) :
    (cellAt (put_interval m t1 t2) h =
      if (t1 < (h - 1) * 60 + 30 ∧ t2 > (h - 1) * 60) ∧
          (t1 < h * 60 ∧ t2 > (h - 1) * 60 + 30) then CellState.no
      else if t1 < (h - 1) * 60 + 30 ∧ t2 > (h - 1) * 60 then CellState.first
      else if t1 < h * 60 ∧ t2 > (h - 1) * 60 + 30 then CellState.second
      else cellAt m h) ∧
    (t1 ≤ (h - 1) * 60 → h * 60 ≤ t2 → cellAt (put_interval m t1 t2) h = CellState.no) ∧
    ((h * 60 ≤ t1 ∨ t2 ≤ (h - 1) * 60) → cellAt (put_interval m t1 t2) h = cellAt m h) := by
  obtain ⟨h1, h2⟩ := hh
  have he : (h - 1) * 60 + 60 = h * 60 := by omega
  rw [cellAt_put_interval m t1 t2 h h1 h2, putIntervalCell_eq, he]
  refine ⟨rfl, ?_, ?_⟩
  · intro ha hb2
    have hA : (t1 < (h - 1) * 60 + 30 ∧ t2 > (h - 1) * 60) ∧
        (t1 < h * 60 ∧ t2 > (h - 1) * 60 + 30) := by omega
    rw [if_pos hA]
  · intro hout
    have hfo : ¬ (t1 < (h - 1) * 60 + 30 ∧ t2 > (h - 1) * 60) := by omega
    have hso : ¬ (t1 < h * 60 ∧ t2 > (h - 1) * 60 + 30) := by omega
    simp [hfo, hso]

/-- Witness for C2 at `t1 = 01:00`, `t2 = 05:00`, slot 3 on an all-`yes`
map. -/
theorem c2_put_interval_semantics_witness :
    cellAt (put_interval initHourMap 60 300) 3 = CellState.no :=
  (c2_put_interval_semantics initHourMap 60 300 3 (by decide) (by decide)).2.1
    (by decide) (by decide)

/-- C3 (confirmed): in `put_interval_update`, a slot whose incoming mark is a
half-hour outage escalates: `first` arriving on a cell holding `second` gives
`no`, `second` arriving on `first` gives `no`, and `first` arriving on
`first` stays `first`. -/
theorem c3_escalation (m : HourMap) (t1 t2 : Nat) (h : Nat)
    (hh : 1 ≤ h ∧ h ≤ 24) :
    ((t1 < (h - 1) * 60 + 30 ∧ t2 > (h - 1) * 60) →
      ¬ (t1 < h * 60 ∧ t2 > (h - 1) * 60 + 30) →
      (cellAt m h = CellState.second →
        cellAt (put_interval_update m t1 t2) h = CellState.no) ∧
      (cellAt m h = CellState.first →
        cellAt (put_interval_update m t1 t2) h = CellState.first)) ∧
    ((t1 < h * 60 ∧ t2 > (h - 1) * 60 + 30) →
      ¬ (t1 < (h - 1) * 60 + 30 ∧ t2 > (h - 1) * 60) →
      cellAt m h = CellState.first →
      cellAt (put_interval_update m t1 t2) h = CellState.no) := by
  obtain ⟨h1, h2⟩ := hh
  have he : (h - 1) * 60 + 60 = h * 60 := by omega
  rw [cellAt_put_interval_update m t1 t2 h h1 h2, putIntervalUpdateCell_eq, he]
  constructor
  · intro hfo hso
    constructor <;> intro hold <;> rw [hold] <;> simp [hfo, hso]
  · intro hso hfo hold
    rw [hold]
    simp [hfo, hso]

/-- Witness for C3: interval `00:00`–`00:30` (first half of hour 1) on a map
whose hour 1 holds `second` escalates that slot to `no`. -/
theorem c3_escalation_witness :
    cellAt (put_interval_update (CellState.second :: List.replicate 23 CellState.yes) 0 30) 1
      = CellState.no :=
  ((c3_escalation (CellState.second :: List.replicate 23 CellState.yes) 0 30 1
    (by decide)).1 (by decide) (by decide)).1 (by decide)

/-- C6 (confirmed): with non-empty group and interval lists, an update whose
resolved target day-key has no entry in the document's `fact.data` is
rejected: `apply_schedule_update` returns `false` and the document — every
cell, group and timestamp — is exactly as before. -/
theorem c6_missing_day_rejected (doc : ScheduleDoc) (groups : List String)
    (intervals : List (Nat × Nat)) (target_ts nowUTC nowLocal : String)
    (hg : groups ≠ []) (hi : intervals ≠ [])
    (hmiss : lookupA target_ts doc.factData = none) :
    apply_schedule_update doc groups intervals target_ts nowUTC nowLocal = (false, doc) := by
  have hne : ¬ (groups.isEmpty ∨ intervals.isEmpty) := by
    simp [List.isEmpty_iff, hg, hi]
  unfold apply_schedule_update
  rw [if_neg hne, hmiss]

/-- Witness for C6: a one-day document queried at an absent day-key. -/
theorem c6_missing_day_rejected_witness :
    apply_schedule_update ⟨"U0", [("100", [("GPV4.2", initHourMap)])], "L0"⟩
      ["GPV4.2"] [(60, 300)] "200" "U1" "L1" =
      (false, ⟨"U0", [("100", [("GPV4.2", initHourMap)])], "L0"⟩) :=
  c6_missing_day_rejected ⟨"U0", [("100", [("GPV4.2", initHourMap)])], "L0"⟩
    ["GPV4.2"] [(60, 300)] "200" "U1" "L1" (by decide) (by decide) (by decide)

/-! ## The core-state vocabulary invariant (C10) -/

lemma putIntervalCell_old_or_off (t1 t2 hour : Nat) (old : CellState) :
    putIntervalCell t1 t2 hour old = old ∨
      putIntervalCell t1 t2 hour old ∈
        [CellState.no, CellState.first, CellState.second] := by
  rw [putIntervalCell_eq]
  split_ifs <;> simp

lemma putIntervalUpdateCell_old_or_off (t1 t2 hour : Nat) (old : CellState) :
    putIntervalUpdateCell t1 t2 hour old = old ∨
      putIntervalUpdateCell t1 t2 hour old ∈
        [CellState.no, CellState.first, CellState.second] := by
  rw [putIntervalUpdateCell_eq]
  split_ifs <;> simp

lemma getD_good {m : HourMap} (hm : goodMap m) (i : Nat) :
    m.getD i CellState.yes ∈ coreStates := by
  rcases Nat.lt_or_ge i m.length with hl | hl
  · refine hm _ ?_
    rw [List.getD_eq_getElem m CellState.yes hl]
    exact List.getElem_mem hl
  · rw [List.getD_eq_default _ _ hl]
    simp [coreStates]

lemma goodMap_put_interval {m : HourMap} (t1 t2 : Nat) (hm : goodMap m) :
    goodMap (put_interval m t1 t2) := by
  intro c hc
  simp only [put_interval, List.mem_map, List.mem_range] at hc
  obtain ⟨i, _, rfl⟩ := hc
  rcases putIntervalCell_old_or_off t1 t2 (i + 1) (m.getD i CellState.yes) with h | h
  · rw [h]
    exact getD_good hm i
  · simp only [coreStates]
    simp at h ⊢
    tauto

lemma goodMap_put_interval_update {m : HourMap} (t1 t2 : Nat) (hm : goodMap m) :
    goodMap (put_interval_update m t1 t2) := by
  intro c hc
  simp only [put_interval_update, List.mem_map, List.mem_range] at hc
  obtain ⟨i, _, rfl⟩ := hc
  rcases putIntervalUpdateCell_old_or_off t1 t2 (i + 1) (m.getD i CellState.yes) with h | h
  · rw [h]
    exact getD_good hm i
  · simp only [coreStates]
    simp at h ⊢
    tauto

lemma goodMap_init : goodMap initHourMap := by
  intro c hc
  simp only [initHourMap, List.mem_replicate] at hc
  simp [hc.2, coreStates]

lemma goodMap_applyParsedInterval {m : HourMap} (t1 t2 : Nat) (hm : goodMap m) :
    goodMap (applyParsedInterval m t1 t2) := by
  unfold applyParsedInterval
  split_ifs <;> solve
    | exact goodMap_put_interval _ _ (goodMap_put_interval _ _ hm)
    | exact goodMap_put_interval _ _ hm

lemma goodTable_setA {dt : DayTable} (k : String) (v : HourMap)
    (hv : goodMap v) (hdt : goodTable dt) : goodTable (setA k v dt) := by
  intro p hp
  unfold setA at hp
  split at hp
  · simp only [List.mem_map] at hp
    obtain ⟨q, hq, rfl⟩ := hp
    split
    · exact hv
    · exact hdt q hq
  · rcases List.mem_append.mp hp with h | h
    · exact hdt p h
    · simp at h
      rw [h]
      exact hv

lemma lookupA_mem {α : Type} {k : String} {l : List (String × α)} {v : α}
    (h : lookupA k l = some v) : (k, v) ∈ l := by
  induction l with
  | nil => simp [lookupA] at h
  | cons p rest ih =>
    unfold lookupA at h
    split at h
    · rename_i hk
      simp only [Option.some.injEq] at h
      have : (k, v) = p := by
        rw [← hk, ← h]
      rw [this]
      exact List.mem_cons_self p rest
    · right
      exact ih h

lemma goodTable_updateGroup {dt : DayTable} (g : String) (f : HourMap → HourMap)
    (hf : ∀ m, goodMap m → goodMap (f m)) (hdt : goodTable dt) :
    goodTable (updateGroup dt g f) := by
  unfold updateGroup
  split
  · rename_i m hm
    exact goodTable_setA g (f m) (hf m (hdt _ (lookupA_mem hm))) hdt
  · exact hdt

lemma goodTable_parse (text : String) : goodTable (parse_schedule_from_text text) := by
  unfold parse_schedule_from_text
  generalize collectGroups text.data = gps
  suffices hstep : ∀ (acc : DayTable), goodTable acc →
      goodTable (gps.foldl
        (fun result gp =>
          (findIntervals gp.2).foldl
            (fun result iv =>
              updateGroup result ("GPV" ++ gp.1)
                (fun m => applyParsedInterval m
                  (time_to_hour iv.1.1 iv.1.2) (time_to_hour iv.2.1 iv.2.2)))
            (setA ("GPV" ++ gp.1) initHourMap result))
        acc) by
    exact hstep [] (by intro p hp; simp at hp)
  induction gps with
  | nil => intro acc hacc; exact hacc
  | cons gp rest ih =>
    intro acc hacc
    simp only [List.foldl_cons]
    apply ih
    generalize findIntervals gp.2 = ivs
    suffices hinner : ∀ (acc2 : DayTable), goodTable acc2 →
        goodTable (ivs.foldl
          (fun result iv =>
            updateGroup result ("GPV" ++ gp.1)
              (fun m => applyParsedInterval m
                (time_to_hour iv.1.1 iv.1.2) (time_to_hour iv.2.1 iv.2.2)))
          acc2) by
      exact hinner _ (goodTable_setA _ _ goodMap_init hacc)
    induction ivs with
    | nil => intro acc2 hacc2; exact hacc2
    | cons iv rest2 ih2 =>
      intro acc2 hacc2
      simp only [List.foldl_cons]
      exact ih2 _ (goodTable_updateGroup _ _
        (fun m hm => goodMap_applyParsedInterval _ _ hm) hacc2)

/-- C10 (confirmed): the only values the core writes into Hour Map cells are
`yes` (group initialization), `no`, `first` and `second`: both interval
routines leave a slot unchanged or set it to one of `no`/`first`/`second`
(in particular they never write `yes`, `maybe`, `mfirst` or `msecond`, so one
interval application never resets an hour to power-on), and every cell of
every group produced by the Full-Schedule Parser is one of the four core
states. -/
theorem c10_core_vocabulary :
    (∀ (m : HourMap) (t1 t2 h : Nat), 1 ≤ h → h ≤ 24 →
      cellAt (put_interval m t1 t2) h = cellAt m h ∨
        cellAt (put_interval m t1 t2) h ∈
          [CellState.no, CellState.first, CellState.second]) ∧
    (∀ (m : HourMap) (t1 t2 h : Nat), 1 ≤ h → h ≤ 24 →
      cellAt (put_interval_update m t1 t2) h = cellAt m h ∨
        cellAt (put_interval_update m t1 t2) h ∈
          [CellState.no, CellState.first, CellState.second]) ∧
    (∀ (text g : String) (m : HourMap),
      lookupA g (parse_schedule_from_text text) = some m →
      ∀ h, cellAt m h ∈ coreStates) := by
  refine ⟨?_, ?_, ?_⟩
  · intro m t1 t2 h h1 h2
    rw [cellAt_put_interval m t1 t2 h h1 h2]
    exact putIntervalCell_old_or_off t1 t2 h (cellAt m h)
  · intro m t1 t2 h h1 h2
    rw [cellAt_put_interval_update m t1 t2 h h1 h2]
    exact putIntervalUpdateCell_old_or_off t1 t2 h (cellAt m h)
  · intro text g m hl h
    exact getD_good (goodTable_parse text _ (lookupA_mem hl)) (h - 1)

/-- Witness for C10: slot 1 under the interval `00:00`–`00:30`, and the
cells parsed from the scenario-1 text. -/
theorem c10_core_vocabulary_witness :
    (cellAt (put_interval initHourMap 0 30) 1 = cellAt initHourMap 1 ∨
      cellAt (put_interval initHourMap 0 30) 1 ∈
        [CellState.no, CellState.first, CellState.second]) ∧
    cellAt (CellState.yes :: CellState.no :: CellState.no :: CellState.no :: CellState.no ::
        List.replicate 19 CellState.yes) 3 ∈ coreStates :=
  ⟨c10_core_vocabulary.1 initHourMap 0 30 1 (by decide) (by decide),
   c10_core_vocabulary.2.2 "📌 4.2 черги: з 01:00 до 05:00" "GPV4.2" _ (by decide) 3⟩

/-! ## Dict-update lemmas -/

lemma lookupA_mapSet_ne {α : Type} (k g : String) (v : α) (l : List (String × α))
    (hne : g ≠ k) :
    lookupA g (l.map fun p => if p.1 = k then (k, v) else p) = lookupA g l := by
  induction l with
  | nil => rfl
  | cons p rest ih =>
    simp only [List.map_cons]
    by_cases hp : p.1 = k
    · rw [if_pos hp]
      show (if k = g then some v else _) = _
      rw [if_neg (fun h => hne h.symm), ih]
      show _ = (if p.1 = g then some p.2 else lookupA g rest)
      rw [if_neg (by rw [hp]; exact fun h => hne h.symm)]
    · rw [if_neg hp]
      show (if p.1 = g then some p.2 else _) = (if p.1 = g then some p.2 else _)
      by_cases hpg : p.1 = g
      · rw [if_pos hpg, if_pos hpg]
      · rw [if_neg hpg, if_neg hpg]
        exact ih

lemma lookupA_append {α : Type} (g : String) (l1 l2 : List (String × α)) :
    lookupA g (l1 ++ l2) =
      match lookupA g l1 with
      | some v => some v
      | none => lookupA g l2 := by
  induction l1 with
  | nil => rfl
  | cons p rest ih =>
    by_cases hp : p.1 = g
    · simp [lookupA, hp]
    · simp [lookupA, hp, ih]

lemma lookupA_setA_ne {α : Type} (k g : String) (v : α) (l : List (String × α))
    (hne : g ≠ k) : lookupA g (setA k v l) = lookupA g l := by
  unfold setA
  split
  · exact lookupA_mapSet_ne k g v l hne
  · rw [lookupA_append]
    cases hl : lookupA g l with
    | some w => rfl
    | none => simp [lookupA, Ne.symm hne]

lemma updGroupStep_absent {intervals : List (Nat × Nat)} {acc : DayTable × Bool}
    {g : String} (g2 : String) (hacc : lookupA g acc.1 = none) :
    lookupA g (updGroupStep intervals acc g2).1 = none := by
  unfold updGroupStep
  cases hl : lookupA g2 acc.1 with
  | none => exact hacc
  | some m =>
    have hne : g ≠ g2 := by
      intro h
      rw [h, hl] at hacc
      cases hacc
    exact (lookupA_setA_ne g2 g _ acc.1 hne).trans hacc

lemma applyUpdateGroups_absent (dt : DayTable) (groups : List String)
    (intervals : List (Nat × Nat)) (g : String) (hg : lookupA g dt = none) :
    lookupA g (applyUpdateGroups dt groups intervals).1 = none := by
  unfold applyUpdateGroups
  suffices h : ∀ acc : DayTable × Bool, lookupA g acc.1 = none →
      lookupA g (groups.foldl (updGroupStep intervals) acc).1 = none by
    exact h (dt, false) hg
  induction groups with
  | nil =>
    intro acc hacc
    exact hacc
  | cons g2 rest ih =>
    intro acc hacc
    simp only [List.foldl_cons]
    exact ih _ (updGroupStep_absent g2 hacc)

/-- C4 counterexample: a document whose day table holds only `GPV1.1`, updated
for target group `GPV4.2` with the interval `01:00`–`05:00`.  Contrary to the
claim, the absent group is **not** initialized to all-`yes` and updated: the
merge reports no change and returns the document with `GPV4.2` still absent
(the claimed behavior would add `GPV4.2` with hours 2–5 `no` and return
`true`). -/
theorem c4_counterexample :
    apply_schedule_update ⟨"U0", [("100", [("GPV1.1", initHourMap)])], "L0"⟩
        ["GPV4.2"] [(60, 300)] "100" "U1" "L1" =
      (false, ⟨"U0", [("100", [("GPV1.1", initHourMap)])], "L0"⟩) ∧
    (lookupA "100"
      (apply_schedule_update ⟨"U0", [("100", [("GPV1.1", initHourMap)])], "L0"⟩
        ["GPV4.2"] [(60, 300)] "100" "U1" "L1").2.factData).map
          (fun dt => lookupA "GPV4.2" dt) = some none := by
  constructor
  · decide
  · decide

/-- C4 amended (proved): a target group absent from the target day's Day Table
is skipped by the merge: it is never added or initialized (it stays absent
from the resulting table), and dropping it from the group list leaves the
merge result — table and change flag — unchanged. -/
theorem c4_amended_absent_group_skipped (dt : DayTable) (groups : List String)
    (intervals : List (Nat × Nat)) (g : String) (hg : lookupA g dt = none) :
    lookupA g (applyUpdateGroups dt groups intervals).1 = none ∧
    applyUpdateGroups dt (g :: groups) intervals = applyUpdateGroups dt groups intervals := by
  constructor
  · exact applyUpdateGroups_absent dt groups intervals g hg
  · unfold applyUpdateGroups
    simp only [List.foldl_cons]
    have hstep : updGroupStep intervals (dt, false) g = (dt, false) := by
      unfold updGroupStep
      rw [hg]
    rw [hstep]

/-- Witness for the amended C4 at the counterexample's inputs. -/
theorem c4_amended_absent_group_skipped_witness :
    lookupA "GPV4.2"
        (applyUpdateGroups [("GPV1.1", initHourMap)] ["GPV4.2"] [(60, 300)]).1 = none ∧
    applyUpdateGroups [("GPV1.1", initHourMap)] ["GPV4.2", "GPV1.1"] [(60, 300)] =
      applyUpdateGroups [("GPV1.1", initHourMap)] ["GPV1.1"] [(60, 300)] :=
  c4_amended_absent_group_skipped [("GPV1.1", initHourMap)] ["GPV1.1"] [(60, 300)]
    "GPV4.2" (by decide)

/-- C1 counterexample: the scenario-1 text parses to a table whose `GPV4.2`
Hour Map holds `yes` — not the claimed `no` — at hour key 1.  Hour key `N`
covers `[N-1:00, N:00)`, so the outage `01:00`–`05:00` cannot touch hour 1
(which covers `00:00`–`01:00`). -/
theorem c1_counterexample :
    (lookupA "GPV4.2"
      (parse_schedule_from_text "📌 4.2 черги: з 01:00 до 05:00")).map
        (fun m => cellAt m 1) = some CellState.yes := by
  decide

/-- C1 amended (proved): the text `"📌 4.2 черги: з 01:00 до 05:00"` parses to
a Day Table containing exactly the group `GPV4.2`, whose Hour Map has state
`no` at hour keys 2 through 5 (the slots covering `01:00`–`05:00`) and state
`yes` at hour key 1 and at hour keys 6 through 24. -/
theorem c1_amended_scenario1 :
    parse_schedule_from_text "📌 4.2 черги: з 01:00 до 05:00" =
      [("GPV4.2",
        CellState.yes :: CellState.no :: CellState.no :: CellState.no :: CellState.no ::
          List.replicate 19 CellState.yes)] := by
  decide

/-- C5 counterexample: the update message interval `23:30`–`02:30`
(`t1 = 23.5 > t2 = 2.5` hours, in minutes `1410 > 150`) applied through
`apply_schedule_update` is **not** split at midnight: the merge feeds it to
`put_interval_update` unsplit, where it marks nothing, so the call reports no
change and leaves an all-`yes` `GPV4.2` untouched — whereas feeding the
claimed split pair `(t1, 24)`, `(0, t2)` would mark hour 24 `second` and
hours 1–2 `no`, hour 3 `first`. -/
theorem c5_counterexample :
    apply_schedule_update ⟨"U0", [("100", [("GPV4.2", initHourMap)])], "L0"⟩
        ["GPV4.2"] [(1410, 150)] "100" "U1" "L1" =
      (false, ⟨"U0", [("100", [("GPV4.2", initHourMap)])], "L0"⟩) ∧
    put_interval_update (put_interval_update initHourMap 1410 1440) 0 150 ≠
      initHourMap := by
  constructor
  · decide
  · decide

/-- C5 amended (proved): midnight handling differs between the two paths.  In
the Full-Schedule Parser an extracted interval with `t2 ≤ t1` is split into
`(t1, 24)` and `(0, t2)` before reaching `put_interval`.  In the merge path of
`apply_schedule_update` an interval is split — into `(t1, 24)` and
`(0, t2 - 24)` — only when `t2 > 24` (the form produced by the
`"продовжується до"` normalization); a `"з HH:MM до HH:MM"` interval with
`t2 ≤ t1` reaches `put_interval_update` unsplit. -/
theorem c5_amended_midnight_split (m : HourMap) (t1 t2 : Nat) :
    (t2 ≤ t1 →
      applyParsedInterval m t1 t2 = put_interval (put_interval m t1 1440) 0 t2) ∧
    (t2 > 1440 →
      applyUpdateInterval m t1 t2 =
        put_interval_update (put_interval_update m t1 1440) 0 (t2 - 1440)) ∧
    (t2 ≤ 1440 → applyUpdateInterval m t1 t2 = put_interval_update m t1 t2) := by
  refine ⟨?_, ?_, ?_⟩
  · intro h
    unfold applyParsedInterval
    rw [if_pos h]
  · intro h
    unfold applyUpdateInterval
    rw [if_pos h]
  · intro h
    unfold applyUpdateInterval
    rw [if_neg (by omega)]

/-- Witness for the amended C5 at the counterexample interval `23:30`–`02:30`
and at a `"продовжується до"`-normalized interval `23:30`–`26:30`. -/
theorem c5_amended_midnight_split_witness :
    applyParsedInterval initHourMap 1410 150 =
      put_interval (put_interval initHourMap 1410 1440) 0 150 ∧
    applyUpdateInterval initHourMap 1410 1590 =
      put_interval_update (put_interval_update initHourMap 1410 1440) 0 150 ∧
    applyUpdateInterval initHourMap 1410 150 = put_interval_update initHourMap 1410 150 :=
  ⟨(c5_amended_midnight_split initHourMap 1410 150).1 (by decide),
   by
    have h := (c5_amended_midnight_split initHourMap 1410 1590).2.1 (by decide)
    simpa using h,
   (c5_amended_midnight_split initHourMap 1410 150).2.2 (by decide)⟩

/-! ## No-change lemmas for the merge (C7) -/

lemma mapSet_id_of_not_mem {α : Type} (k : String) (v : α) (l : List (String × α))
    (hk : lookupA k l = none) :
    (l.map fun p => if p.1 = k then (k, v) else p) = l := by
  induction l with
  | nil => rfl
  | cons p rest ih =>
    unfold lookupA at hk
    split at hk
    · cases hk
    · rename_i hp
      simp only [List.map_cons, if_neg hp]
      rw [ih hk]

lemma nodup_keys_tail {α : Type} {p : String × α} {rest : List (String × α)}
    (hnd : ((p :: rest).map Prod.fst).Nodup) :
    (rest.map Prod.fst).Nodup ∧ lookupA p.1 rest = none := by
  simp only [List.map_cons, List.nodup_cons] at hnd
  refine ⟨hnd.2, ?_⟩
  cases hl : lookupA p.1 rest with
  | none => rfl
  | some v =>
    exact absurd (List.mem_map_of_mem Prod.fst (lookupA_mem hl)) hnd.1

lemma setA_self {α : Type} {k : String} {v : α} {l : List (String × α)}
    (hnd : (l.map Prod.fst).Nodup) (hv : lookupA k l = some v) :
    setA k v l = l := by
  unfold setA
  rw [if_pos (by simp [hv])]
  induction l with
  | nil => cases hv
  | cons p rest ih =>
    obtain ⟨hnd2, hnone⟩ := nodup_keys_tail hnd
    unfold lookupA at hv
    split at hv
    · rename_i hp
      simp only [Option.some.injEq] at hv
      simp only [List.map_cons, if_pos hp]
      have hpv : (k, v) = p := by
        rw [← hp, ← hv]
      rw [mapSet_id_of_not_mem k v rest (hp ▸ hnone), hpv]
    · rename_i hp
      simp only [List.map_cons, if_neg hp]
      rw [ih hnd2 hv]

lemma keys_setA_of_mem {α : Type} (k : String) (v : α) (l : List (String × α))
    (hk : (lookupA k l).isSome) :
    (setA k v l).map Prod.fst = l.map Prod.fst := by
  unfold setA
  rw [if_pos hk, List.map_map]
  refine List.map_congr_left ?_
  intro p _
  by_cases hp : p.1 = k
  · simp [hp]
  · simp [hp]

lemma updGroupStep_eq_none {intervals : List (Nat × Nat)} {acc : DayTable × Bool}
    {g : String} (hl : lookupA g acc.1 = none) :
    updGroupStep intervals acc g = acc := by
  unfold updGroupStep
  rw [hl]

lemma updGroupStep_eq_some {intervals : List (Nat × Nat)} {acc : DayTable × Bool}
    {g : String} {m : HourMap} (hl : lookupA g acc.1 = some m) :
    updGroupStep intervals acc g =
      (setA g (intervals.foldl (fun mm iv => applyUpdateInterval mm iv.1 iv.2) m) acc.1,
       acc.2 ||
         decide (intervals.foldl (fun mm iv => applyUpdateInterval mm iv.1 iv.2) m ≠ m)) := by
  unfold updGroupStep
  rw [hl]

lemma updGroupStep_keys (intervals : List (Nat × Nat)) (acc : DayTable × Bool)
    (g : String) :
    (updGroupStep intervals acc g).1.map Prod.fst = acc.1.map Prod.fst := by
  unfold updGroupStep
  cases hl : lookupA g acc.1 with
  | none => rfl
  | some m =>
    exact keys_setA_of_mem g _ acc.1 (by simp [hl])

lemma updGroupStep_flag_mono (intervals : List (Nat × Nat)) (acc : DayTable × Bool)
    (g : String) (h : (updGroupStep intervals acc g).2 = false) : acc.2 = false := by
  unfold updGroupStep at h
  cases hl : lookupA g acc.1 with
  | none =>
    rw [hl] at h
    exact h
  | some m =>
    rw [hl] at h
    simp only [Bool.or_eq_false_iff] at h
    exact h.1

lemma foldl_flag_mono (intervals : List (Nat × Nat)) (groups : List String) :
    ∀ acc : DayTable × Bool,
      (groups.foldl (updGroupStep intervals) acc).2 = false → acc.2 = false := by
  induction groups with
  | nil =>
    intro acc h
    exact h
  | cons g rest ih =>
    intro acc h
    simp only [List.foldl_cons] at h
    exact updGroupStep_flag_mono intervals acc g (ih _ h)

lemma foldl_no_change (intervals : List (Nat × Nat)) (groups : List String) :
    ∀ acc : DayTable × Bool, (acc.1.map Prod.fst).Nodup →
      (groups.foldl (updGroupStep intervals) acc).2 = false →
      (groups.foldl (updGroupStep intervals) acc).1 = acc.1 := by
  induction groups with
  | nil =>
    intro acc _ _
    rfl
  | cons g rest ih =>
    intro acc hnd h
    simp only [List.foldl_cons] at h ⊢
    have hstep : updGroupStep intervals acc g = acc := by
      have hflag : (updGroupStep intervals acc g).2 = false :=
        foldl_flag_mono intervals rest _ h
      cases hl : lookupA g acc.1 with
      | none => exact updGroupStep_eq_none hl
      | some m =>
        rw [updGroupStep_eq_some hl] at hflag ⊢
        simp only [Bool.or_eq_false_iff, decide_eq_false_iff_not, not_not] at hflag
        obtain ⟨hacc2, hm2⟩ := hflag
        rw [hm2, setA_self hnd hl]
        have hd : decide (m ≠ m) = false := by simp
        rw [hd, Bool.or_false]
    rw [hstep] at h ⊢
    exact ih acc hnd h

lemma applyUpdateGroups_no_change (dt : DayTable) (groups : List String)
    (intervals : List (Nat × Nat)) (hnd : (dt.map Prod.fst).Nodup)
    (h : (applyUpdateGroups dt groups intervals).2 = false) :
    (applyUpdateGroups dt groups intervals).1 = dt :=
  foldl_no_change intervals groups (dt, false) hnd h

lemma apply_schedule_update_eq_empty {doc : ScheduleDoc} {groups : List String}
    {intervals : List (Nat × Nat)} {ts u l : String}
    (hep : groups.isEmpty ∨ intervals.isEmpty) :
    apply_schedule_update doc groups intervals ts u l = (false, doc) := by
  unfold apply_schedule_update
  rw [if_pos hep]

lemma apply_schedule_update_eq_miss {doc : ScheduleDoc} {groups : List String}
    {intervals : List (Nat × Nat)} {ts u l : String}
    (hne : ¬ (groups.isEmpty ∨ intervals.isEmpty))
    (hdt : lookupA ts doc.factData = none) :
    apply_schedule_update doc groups intervals ts u l = (false, doc) := by
  unfold apply_schedule_update
  rw [if_neg hne, hdt]

lemma apply_schedule_update_eq_some {doc : ScheduleDoc} {groups : List String}
    {intervals : List (Nat × Nat)} {ts u l : String} {dt0 : DayTable}
    (hne : ¬ (groups.isEmpty ∨ intervals.isEmpty))
    (hdt : lookupA ts doc.factData = some dt0) :
    apply_schedule_update doc groups intervals ts u l =
      (if (applyUpdateGroups dt0 groups intervals).2 then
        (true, ⟨u, setA ts (applyUpdateGroups dt0 groups intervals).1 doc.factData, l⟩)
      else
        (false,
          { doc with factData := setA ts (applyUpdateGroups dt0 groups intervals).1 doc.factData })) := by
  unfold apply_schedule_update
  rw [if_neg hne, hdt]

/-- C7 counterexample: a document whose today's `GPV4.2` holds `second` at
hour 1, updated with the half-hour interval `00:00`–`00:30`.  The first
application escalates hour 1 to `no` and returns `true`; re-applying the
**same groups and intervals** to the resulting document returns `true` again
(hour 1 flips from `no` back to `first`), not the `false` no-op the claim
asserts for re-application. -/
theorem c7_counterexample :
    (apply_schedule_update
      (apply_schedule_update
        ⟨"U0", [("100", [("GPV4.2", CellState.second :: List.replicate 23 CellState.yes)])], "L0"⟩
        ["GPV4.2"] [(0, 30)] "100" "U1" "L1").2
      ["GPV4.2"] [(0, 30)] "100" "U2" "L2").1 = true := by
  decide

/-- C7 amended (proved): `apply_schedule_update` returns `false` exactly when
no hour cell of any target group changed during this application, and then it
mutates nothing: the returned document equals the input (given well-formed,
duplicate-free keys).  When it returns `true` it rewrites `lastUpdated` and
`fact.update` to the current wall-clock strings.  Scenario 3 holds as stated:
the interval `01:00`–`05:00` on an all-`yes` `GPV4.2` sets exactly hours 2–5
(the slots covering 01:00–05:00) to `no`, rewrites both timestamps and
returns `true`, and re-applying the same input to the updated document is a
`false` no-op.  But re-application is **not** a no-op in general (see the
counterexample): a cell escalated to `no` by a half-hour update is flipped
back to `first`/`second` when the update is re-applied. -/
theorem c7_amended_change_gate :
    (∀ (doc : ScheduleDoc) (groups : List String) (intervals : List (Nat × Nat))
        (ts u l : String),
      (doc.factData.map Prod.fst).Nodup →
      (∀ dt, lookupA ts doc.factData = some dt → (dt.map Prod.fst).Nodup) →
      (apply_schedule_update doc groups intervals ts u l).1 = false →
      (apply_schedule_update doc groups intervals ts u l).2 = doc) ∧
    (∀ (doc : ScheduleDoc) (groups : List String) (intervals : List (Nat × Nat))
        (ts u l : String),
      (apply_schedule_update doc groups intervals ts u l).1 = true →
      (apply_schedule_update doc groups intervals ts u l).2.lastUpdated = u ∧
        (apply_schedule_update doc groups intervals ts u l).2.factUpdate = l) ∧
    (apply_schedule_update ⟨"U0", [("100", [("GPV4.2", initHourMap)])], "L0"⟩
        ["GPV4.2"] [(60, 300)] "100" "U1" "L1" =
      (true, ⟨"U1",
        [("100",
          [("GPV4.2",
            CellState.yes :: CellState.no :: CellState.no :: CellState.no :: CellState.no ::
              List.replicate 19 CellState.yes)])], "L1"⟩)) ∧
    (apply_schedule_update ⟨"U1",
        [("100",
          [("GPV4.2",
            CellState.yes :: CellState.no :: CellState.no :: CellState.no :: CellState.no ::
              List.replicate 19 CellState.yes)])], "L1"⟩
        ["GPV4.2"] [(60, 300)] "100" "U2" "L2" =
      (false, ⟨"U1",
        [("100",
          [("GPV4.2",
            CellState.yes :: CellState.no :: CellState.no :: CellState.no :: CellState.no ::
              List.replicate 19 CellState.yes)])], "L1"⟩)) := by
  refine ⟨?_, ?_, by decide, by decide⟩
  · intro doc groups intervals ts u l hnd1 hnd2 hfalse
    by_cases hempty : groups.isEmpty ∨ intervals.isEmpty
    · rw [apply_schedule_update_eq_empty hempty]
    · cases hdt : lookupA ts doc.factData with
      | none => rw [apply_schedule_update_eq_miss hempty hdt]
      | some dt0 =>
        rw [apply_schedule_update_eq_some hempty hdt] at hfalse ⊢
        cases hres : (applyUpdateGroups dt0 groups intervals).2 with
        | true =>
          rw [hres] at hfalse
          simp at hfalse
        | false =>
          rw [if_neg (by simp)]
          show ({ doc with
            factData := setA ts (applyUpdateGroups dt0 groups intervals).1 doc.factData } :
              ScheduleDoc) = doc
          rw [applyUpdateGroups_no_change dt0 groups intervals (hnd2 dt0 hdt) hres,
            setA_self hnd1 hdt]
  · intro doc groups intervals ts u l htrue
    by_cases hempty : groups.isEmpty ∨ intervals.isEmpty
    · rw [apply_schedule_update_eq_empty hempty] at htrue
      cases htrue
    · cases hdt : lookupA ts doc.factData with
      | none =>
        rw [apply_schedule_update_eq_miss hempty hdt] at htrue
        cases htrue
      | some dt0 =>
        rw [apply_schedule_update_eq_some hempty hdt] at htrue ⊢
        cases hres : (applyUpdateGroups dt0 groups intervals).2 with
        | true => exact ⟨rfl, rfl⟩
        | false =>
          rw [hres] at htrue
          simp at htrue

/-- Witness for the amended C7: its no-mutation clause applied to the
scenario-3 re-application, which returns `false` and leaves the document
untouched. -/
theorem c7_amended_change_gate_witness :
    (apply_schedule_update ⟨"U1",
        [("100",
          [("GPV4.2",
            CellState.yes :: CellState.no :: CellState.no :: CellState.no :: CellState.no ::
              List.replicate 19 CellState.yes)])], "L1"⟩
        ["GPV4.2"] [(60, 300)] "100" "U2" "L2").2 =
      ⟨"U1",
        [("100",
          [("GPV4.2",
            CellState.yes :: CellState.no :: CellState.no :: CellState.no :: CellState.no ::
              List.replicate 19 CellState.yes)])], "L1"⟩ :=
  c7_amended_change_gate.1 ⟨"U1",
      [("100",
        [("GPV4.2",
          CellState.yes :: CellState.no :: CellState.no :: CellState.no :: CellState.no ::
            List.replicate 19 CellState.yes)])], "L1"⟩
    ["GPV4.2"] [(60, 300)] "100" "U2" "L2" (by decide)
    (by
      intro dt hdt
      have h : dt =
          [("GPV4.2",
            CellState.yes :: CellState.no :: CellState.no :: CellState.no :: CellState.no ::
              List.replicate 19 CellState.yes)] := by
        have := hdt
        simp [lookupA] at this
        exact this.symm
      rw [h]
      decide)
    (by decide)

/-! ## The change gate of `main` (C8) -/

lemma canonData_perm {d1 d2 : List (String × DayTable)} (p : d1.Perm d2) :
    canonData d1 = canonData d2 := by
  unfold canonData
  exact Multiset.coe_eq_coe.mpr (p.map _)

lemma canonData_insertionSort (d : List (String × DayTable)) :
    canonData (List.insertionSort (fun a b => keyToNat a.1 ≤ keyToNat b.1) d) = canonData d :=
  canonData_perm (List.perm_insertionSort _ d)

lemma main_cycle_gate_eq (ctx : ParseCtx) (posts : List String) (doc : ScheduleDoc)
    (h : canonData doc.factData = canonData (buildResults ctx posts)) :
    main_cycle ctx posts (some doc) = (false, some doc) := by
  unfold main_cycle
  by_cases hres : (buildResults ctx posts).isEmpty
  · rw [if_pos hres]
  · rw [if_neg hres]
    simp [h]

lemma main_cycle_write (ctx : ParseCtx) (posts : List String) (store : Option ScheduleDoc)
    (hres : ¬ (buildResults ctx posts).isEmpty)
    (hgate : ∀ doc, store = some doc →
      ¬ canonData doc.factData = canonData (buildResults ctx posts)) :
    main_cycle ctx posts store =
      (true, some ⟨ctx.nowUTC,
        List.insertionSort (fun a b => keyToNat a.1 ≤ keyToNat b.1) (buildResults ctx posts),
        ctx.nowLocal⟩) := by
  unfold main_cycle
  rw [if_neg hres]
  cases store with
  | none => rfl
  | some doc =>
    simp [decide_eq_false (hgate doc rfl)]

/-- C8 (confirmed): (1) when the canonical key-sorted serialization of the
freshly parsed candidate equals that of the stored document's `fact.data`,
the cycle performs no write and reports no update, returning the store
unchanged; (2) consequently, re-running the cycle on an unchanged source post
set — whatever the starting store — never writes a second time. -/
theorem c8_change_gate :
    (∀ (ctx : ParseCtx) (posts : List String) (doc : ScheduleDoc),
      canonData doc.factData = canonData (buildResults ctx posts) →
      main_cycle ctx posts (some doc) = (false, some doc)) ∧
    (∀ (ctx : ParseCtx) (posts : List String) (store : Option ScheduleDoc),
      (main_cycle ctx posts (main_cycle ctx posts store).2).1 = false) := by
  constructor
  · intro ctx posts doc h
    exact main_cycle_gate_eq ctx posts doc h
  · intro ctx posts store
    by_cases hres : (buildResults ctx posts).isEmpty
    · have h1 : main_cycle ctx posts store = (false, store) := by
        unfold main_cycle
        rw [if_pos hres]
      simp only [h1]
    · have hsecond : (main_cycle ctx posts
          (some ⟨ctx.nowUTC,
            List.insertionSort (fun a b => keyToNat a.1 ≤ keyToNat b.1)
              (buildResults ctx posts), ctx.nowLocal⟩)).1 = false := by
        rw [main_cycle_gate_eq ctx posts _ (canonData_insertionSort (buildResults ctx posts))]
      cases store with
      | none =>
        have h1 := main_cycle_write ctx posts none hres (by intro doc hdoc; cases hdoc)
        simp only [h1]
        exact hsecond
      | some doc =>
        by_cases hgate : canonData doc.factData = canonData (buildResults ctx posts)
        · have h1 := main_cycle_gate_eq ctx posts doc hgate
          simp only [h1]
        · have h1 := main_cycle_write ctx posts (some doc) hres
            (by intro d hd; cases hd; exact hgate)
          simp only [h1]
          exact hsecond

/-- Witness for C8: an empty post list against a stored empty document. -/
theorem c8_change_gate_witness :
    main_cycle ⟨"01.01.2025", "02.01.2025", 2025, fun _ => "0", "U", "L"⟩ []
        (some ⟨"U0", [], "L0"⟩) = (false, some ⟨"U0", [], "L0"⟩) ∧
    (main_cycle ⟨"01.01.2025", "02.01.2025", 2025, fun _ => "0", "U", "L"⟩ []
        (main_cycle ⟨"01.01.2025", "02.01.2025", 2025, fun _ => "0", "U", "L"⟩ []
          (some ⟨"U0", [], "L0"⟩)).2).1 = false :=
  ⟨c8_change_gate.1 ⟨"01.01.2025", "02.01.2025", 2025, fun _ => "0", "U", "L"⟩ []
      ⟨"U0", [], "L0"⟩ rfl,
   c8_change_gate.2 ⟨"01.01.2025", "02.01.2025", 2025, fun _ => "0", "U", "L"⟩ []
      (some ⟨"U0", [], "L0"⟩)⟩

/-! ## Date-extractor lemmas (C9) -/

lemma monthFrom_spec {ms : List (String × String)} {cs : List Char} {c : String}
    {r : List Char} (h : monthFrom ms cs = some (c, r)) : c ∈ ms.map Prod.snd := by
  induction ms with
  | nil => cases h
  | cons p rest ih =>
    obtain ⟨nm, code⟩ := p
    unfold monthFrom at h
    cases hml : matchLowerLit nm.data cs with
    | some r2 =>
      rw [hml] at h
      simp only [Option.some.injEq, Prod.mk.injEq] at h
      simp only [List.map_cons]
      rw [← h.1]
      exact List.mem_cons_self _ _
    | none =>
      rw [hml] at h
      simp only [List.map_cons]
      exact List.mem_cons_of_mem _ (ih h)

lemma tryDayTail_spec {day : List Char} {rest : List Char} {d c : String}
    {r : List Char} (h : tryDayTail day rest = some (d, c, r)) :
    d = String.mk day ∧ c ∈ months.map Prod.snd := by
  cases hsp : dropSpaces1 rest with
  | none => simp [tryDayTail, hsp] at h
  | some r2 =>
    cases hm : monthFrom months r2 with
    | none => simp [tryDayTail, hsp, hm] at h
    | some pr =>
      obtain ⟨code, r3⟩ := pr
      simp only [tryDayTail, hsp, hm, Option.pure_def, Option.bind_eq_bind, Option.some_bind,
        Option.some.injEq, Prod.mk.injEq] at h
      exact ⟨h.1.symm, h.2.1 ▸ monthFrom_spec hm⟩

lemma matchDayMonthAt_spec {cs : List Char} {d c : String} {r : List Char}
    (h : matchDayMonthAt cs = some (d, c, r)) :
    (d.length = 1 ∨ d.length = 2) ∧ c ∈ months.map Prod.snd := by
  cases cs with
  | nil => cases h
  | cons c1 cs2 =>
    cases cs2 with
    | nil => cases h
    | cons c2 rest =>
      simp only [matchDayMonthAt] at h
      by_cases h1 : isDigitChar c1
      · rw [if_pos h1] at h
        by_cases h2 : isDigitChar c2
        · rw [if_pos h2] at h
          cases htry : tryDayTail [c1, c2] rest with
          | some pr =>
            rw [htry] at h
            cases h
            obtain ⟨hd, hc⟩ := tryDayTail_spec htry
            exact ⟨Or.inr (by rw [hd]; rfl), hc⟩
          | none =>
            rw [htry] at h
            obtain ⟨hd, hc⟩ := tryDayTail_spec h
            exact ⟨Or.inl (by rw [hd]; rfl), hc⟩
        · rw [if_neg h2] at h
          obtain ⟨hd, hc⟩ := tryDayTail_spec h
          exact ⟨Or.inl (by rw [hd]; rfl), hc⟩
      · rw [if_neg h1] at h
        cases h

lemma scanDayMonth_spec {cs : List Char} {d c : String}
    (h : scanDayMonth cs = some (d, c)) :
    (d.length = 1 ∨ d.length = 2) ∧ c ∈ months.map Prod.snd := by
  induction cs with
  | nil => cases h
  | cons c1 cs2 ih =>
    unfold scanDayMonth at h
    cases hm : matchDayMonthAt (c1 :: cs2) with
    | some pr =>
      rw [hm] at h
      obtain ⟨dd, cc, rr⟩ := pr
      cases h
      exact matchDayMonthAt_spec hm
    | none =>
      rw [hm] at h
      exact ih h

lemma matchTierBAt_spec {cs : List Char} {w d c : String} {r : List Char}
    (h : matchTierBAt cs = some (w, d, c, r)) :
    (d.length = 1 ∨ d.length = 2) ∧ c ∈ months.map Prod.snd := by
  cases h1 : matchLowerLit ['у'] cs with
  | none =>
    simp only [matchTierBAt, h1, Option.pure_def, Option.bind_eq_bind, Option.none_bind] at h
    cases h
  | some r1 =>
    cases h2 : dropSpaces1 r1 with
    | none =>
      simp only [matchTierBAt, h1, h2, Option.pure_def, Option.bind_eq_bind,
        Option.some_bind, Option.none_bind] at h
      cases h
    | some r2 =>
      by_cases hw : (r2.takeWhile isWordApos).isEmpty
      · simp only [matchTierBAt, h1, h2, hw, Option.pure_def, Option.bind_eq_bind,
          Option.some_bind, if_true] at h
        cases h
      · cases h3 : dropLit [','] (r2.dropWhile isWordApos) with
        | none =>
          simp only [matchTierBAt, h1, h2, hw, h3, Option.pure_def, Option.bind_eq_bind,
            Option.some_bind, Option.none_bind, if_false] at h
          cases h
        | some r3 =>
          cases h4 : dropSpaces1 r3 with
          | none =>
            simp only [matchTierBAt, h1, h2, hw, h3, h4, Option.pure_def, Option.bind_eq_bind,
              Option.some_bind, Option.none_bind, if_false] at h
            cases h
          | some r4 =>
            cases h5 : matchDayMonthAt r4 with
            | none =>
              simp only [matchTierBAt, h1, h2, hw, h3, h4, h5, Option.pure_def,
                Option.bind_eq_bind, Option.some_bind, Option.none_bind, if_false] at h
              cases h
            | some pr =>
              obtain ⟨dd, cc, rr⟩ := pr
              simp only [matchTierBAt, h1, h2, hw, h3, h4, h5, Option.pure_def,
                Option.bind_eq_bind, Option.some_bind, Bool.false_eq_true, if_false,
                Option.some.injEq, Prod.mk.injEq] at h
              obtain ⟨hdd, hcc⟩ := matchDayMonthAt_spec h5
              rw [← h.2.1, ← h.2.2.1]
              exact ⟨hdd, hcc⟩

lemma scanTierBAux_spec :
    ∀ (fuel : Nat) (cs : List Char) (d c : String),
      scanTierBAux fuel cs = some (d, c) →
      (d.length = 1 ∨ d.length = 2) ∧ c ∈ months.map Prod.snd := by
  intro fuel
  induction fuel with
  | zero =>
    intro cs d c h
    cases h
  | succ n ih =>
    intro cs d c h
    cases cs with
    | nil => cases h
    | cons c1 cs2 =>
      cases hm : matchTierBAt (c1 :: cs2) with
      | some pr =>
        obtain ⟨ww, dd, cc, rr⟩ := pr
        by_cases hwd : ww ∈ weekdays
        · simp only [scanTierBAux, hm, hwd, if_true, Option.some.injEq, Prod.mk.injEq] at h
          rw [← h.1, ← h.2]
          exact matchTierBAt_spec hm
        · simp only [scanTierBAux, hm, hwd, if_false] at h
          exact ih _ _ _ h
      | none =>
        simp only [scanTierBAux, hm] at h
        exact ih _ _ _ h

lemma zfill2_len {d : String} (h : d.length = 1 ∨ d.length = 2) :
    (zfill2 d).length = 2 := by
  unfold zfill2
  rcases h with h | h
  · rw [if_neg (by omega), String.length_append, h]
    decide
  · rw [if_pos (by omega)]
    exact h

/-- C9 (confirmed): `extract_date_from_post` tries tier (a)
`"<day> <MONTH-IN-CAPS>"` (case-insensitive), then tier (b)
`"у <weekday>, <day> <month>"` validated against the fixed weekday list, then
tier (c) bare `"<day> <month>"`, and returns `DD.MM.<current year>` built
from the first tier with a recognized month — the day zero-padded to two
digits and the year always the given current year — or none when no tier
matches; in particular `"19 ГРУДНЯ"` yields `"19.12.<current-year>"`. -/
theorem c9_extract_date :
    (∀ y : Nat, extract_date_from_post "19 ГРУДНЯ" y = some ("19.12." ++ toString y)) ∧
    (∀ (t : String) (y : Nat) (d c : String), scanDayMonth t.data = some (d, c) →
      extract_date_from_post t y = some (fmtDate d c y)) ∧
    (∀ (t : String) (y : Nat) (s : String), extract_date_from_post t y = some s →
      ∃ d c, c ∈ months.map Prod.snd ∧ s = fmtDate d c y ∧ (zfill2 d).length = 2) ∧
    (∀ (t : String) (y : Nat), scanDayMonth t.data = none →
      scanTierBAux t.data.length t.data = none →
      extract_date_from_post t y = none) := by
  refine ⟨?_, ?_, ?_, ?_⟩
  · intro y
    have h : scanDayMonth ("19 ГРУДНЯ".data) = some ("19", "12") := by decide
    unfold extract_date_from_post
    rw [h]
    rfl
  · intro t y d c h
    unfold extract_date_from_post
    rw [h]
  · intro t y s h
    unfold extract_date_from_post at h
    cases h1 : scanDayMonth t.data with
    | some dm =>
      rw [h1] at h
      obtain ⟨dd, cc⟩ := dm
      cases h
      obtain ⟨hl, hc⟩ := scanDayMonth_spec h1
      exact ⟨dd, cc, hc, rfl, zfill2_len hl⟩
    | none =>
      rw [h1] at h
      cases h2 : scanTierBAux t.data.length t.data with
      | some dm =>
        rw [h2] at h
        obtain ⟨dd, cc⟩ := dm
        cases h
        obtain ⟨hl, hc⟩ := scanTierBAux_spec _ _ _ _ h2
        exact ⟨dd, cc, hc, rfl, zfill2_len hl⟩
      | none =>
        rw [h2] at h
        cases h
  · intro t y h1 h2
    unfold extract_date_from_post
    rw [h1, h2]

/-- Witness for C9 at year 2025. -/
theorem c9_extract_date_witness :
    extract_date_from_post "19 ГРУДНЯ" 2025 = some "19.12.2025" :=
  c9_extract_date.1 2025

end Dnipro
